import Mathlib

/-!
Verification of the request dispatch and session core of the System-Mcp
repository: the JSON-RPC transport loop (`internal/router/router.go`,
`Router.messageLoop`), the method dispatcher (`MCPHandler` in
`internal/router/handler.go`), and the TTL cache
(`internal/storage/cache.go`, `MemoryCache`).

Go JSON values decoded into `interface{}` are modelled by the inductive
`Json`; a Go `nil` interface (absent field or explicit JSON `null`) is
modelled by `Json.null`.  Go maps with string keys are modelled by
association lists whose insertion overwrites the entry with the same key,
so that keys stay unique.  Instants and durations (`time.Time`,
`time.Duration`) are modelled by `Int`; `time.Duration` is a signed
integer in Go, so durations may be negative.
-/

namespace SystemMcp

/-- A JSON value, as decoded by `encoding/json` into `interface{}`.
Numbers are modelled by `Int` (no claim depends on fractional values). -/
inductive Json where
  | null : Json
  | bool (b : Bool) : Json
  | num (n : Int) : Json
  | str (s : String) : Json
  | arr (elems : List Json) : Json
  | obj (fields : List (String × Json)) : Json

/-- `true` exactly on `Json.null`: models the Go test `x == nil` on an
`interface{}` decoded from JSON. -/
def Json.isNull : Json → Bool
  | Json.null => true
  | _ => false

/-- Last binding of `key` in a decoded JSON object: Go's `encoding/json`
lets the last occurrence of a duplicated key win. -/
def lookupLast (fields : List (String × Json)) (key : String) : Option Json :=
  (fields.reverse.find? (fun p => p.1 == key)).map Prod.snd

/-- Looking up a key in a Go map modelled as an association list with
unique keys. -/
def lookupAssoc {β : Type} (ts : List (String × β)) (key : String) : Option β :=
  (ts.find? (fun p => p.1 == key)).map Prod.snd

/-- Go map assignment `m[key] = val`: overwrite the binding of `key` when
present, append a fresh binding otherwise. -/
def insertAssoc {β : Type} (ts : List (String × β)) (key : String) (val : β) :
    List (String × β) :=
  if ts.any (fun p => p.1 == key) then
    ts.map (fun p => if p.1 == key then (key, val) else p)
  else ts ++ [(key, val)]

/-- `types.JSONRPCRequest`.  `ID` and `Params` are `interface{}` in Go, so
an absent field and an explicit `null` both decode to `Json.null`. -/
structure JSONRPCRequest where
  jsonrpc : String
  id : Json
  method : String
  params : Json

/-- `types.RPCError`: `{code (integer), message (string)}`. -/
structure RPCError where
  code : Int
  message : String

/-- `types.Tool`, the projected tool descriptor `{name, description,
input_schema}` returned by `tools/list`. -/
structure ToolDescriptor where
  name : String
  description : String
  inputSchema : Json

/-- `types.Content`: one content item of a `tools/call` result.  The Go
field `Type` is called `ctype` here because `Type` is reserved in Lean. -/
structure Content where
  ctype : String
  text : String

/-- `types.CallToolResult`: `{content, isError}`. -/
structure CallToolResult where
  content : List Content
  isError : Bool

/-- `types.ServerInfo`. -/
structure ServerInfo where
  name : String
  version : String

/-- `types.InitializeResult`, with the capability structs flattened to
their boolean flags. -/
structure InitializeResult where
  protocolVersion : String
  toolsListChanged : Bool
  resourcesSubscribe : Bool
  resourcesListChanged : Bool
  promptsListChanged : Bool
  serverInfo : ServerInfo

/-- The possible values of the `Result interface{}` field of a response:
one constructor per result shape the handler actually builds. -/
inductive ResultValue where
  | initializeResult (r : InitializeResult) : ResultValue
  | toolsList (tools : List ToolDescriptor) : ResultValue
  | callToolResult (r : CallToolResult) : ResultValue
  | promptsList : ResultValue
  | resourcesList : ResultValue

/-- `types.JSONRPCResponse`.  `Result` and `Error` are nilable in Go;
`none` models a nil field. -/
structure JSONRPCResponse where
  jsonrpc : String
  id : Json
  result : Option ResultValue
  error : Option RPCError

/-- `types.CallToolParams`: `{name, arguments}`.  Modelled from the spec:
the `types` package declaring this struct is not in the source tree, but
the spec fixes its shape as `{name, arguments (mapping string→opaque)}`. -/
structure CallToolParams where
  name : String
  arguments : List (String × Json)

/-- `types.MonitorTool`: name, description, input schema and a blocking
`Execute(args) (string, error)`, modelled as `Except` (error message on
failure). -/
structure MonitorTool where
  name : String
  description : String
  inputSchema : Json
  execute : List (String × Json) → Except String String

/-- Modelled from the spec: the method-name constants of the `types`
package are not in the source tree; the spec's dispatcher table and the
repository's test scripts fix them as the standard MCP method strings. -/
def MethodInitialize : String := "initialize"

/-- Modelled from the spec: the legacy alias for the initialized
notification. -/
def MethodInitialized : String := "initialized"

/-- Modelled from the spec: `notifications/initialized`. -/
def MethodNotificationInitialized : String := "notifications/initialized"

/-- Modelled from the spec: `tools/list`. -/
def MethodListTools : String := "tools/list"

/-- Modelled from the spec: `tools/call`. -/
def MethodCallTool : String := "tools/call"

/-- Modelled from the spec: `prompts/list`. -/
def MethodListPrompts : String := "prompts/list"

/-- Modelled from the spec: `resources/list`. -/
def MethodListResources : String := "resources/list"

/-- Modelled from the spec: `resources/read`. -/
def MethodReadResource : String := "resources/read"

/-- `json.Unmarshal(line, &req)` for a line that is valid JSON: the typed
decode into `JSONRPCRequest`.  It fails on a non-object top level and on a
non-string `jsonrpc` or `method`; a JSON `null` in a field is a no-op in
Go and leaves the zero value. -/
def parseRequest (j : Json) : Except String JSONRPCRequest :=
  match j with
  | Json.obj fields =>
    match lookupLast fields "jsonrpc", lookupLast fields "method" with
    | some (Json.bool _), _ => Except.error "cannot unmarshal bool into field jsonrpc"
    | some (Json.num _), _ => Except.error "cannot unmarshal number into field jsonrpc"
    | some (Json.arr _), _ => Except.error "cannot unmarshal array into field jsonrpc"
    | some (Json.obj _), _ => Except.error "cannot unmarshal object into field jsonrpc"
    | _, some (Json.bool _) => Except.error "cannot unmarshal bool into field method"
    | _, some (Json.num _) => Except.error "cannot unmarshal number into field method"
    | _, some (Json.arr _) => Except.error "cannot unmarshal array into field method"
    | _, some (Json.obj _) => Except.error "cannot unmarshal object into field method"
    | jv, mv =>
      Except.ok
        { jsonrpc := match jv with | some (Json.str s) => s | _ => ""
          id := (lookupLast fields "id").getD Json.null
          method := match mv with | some (Json.str s) => s | _ => ""
          params := (lookupLast fields "params").getD Json.null }
  | _ => Except.error "cannot unmarshal non-object into JSONRPCRequest"

/-- `json.Unmarshal(paramBytes, &params)`: the typed decode of the params
value into `CallToolParams`.  `null` leaves zero values (Go no-op);
non-object params, a non-string `name` or non-object `arguments` fail. -/
def parseCallToolParams (j : Json) : Except String CallToolParams :=
  match j with
  | Json.null => Except.ok { name := "", arguments := [] }
  | Json.obj fields =>
    match lookupLast fields "name", lookupLast fields "arguments" with
    | some (Json.bool _), _ => Except.error "cannot unmarshal bool into field name"
    | some (Json.num _), _ => Except.error "cannot unmarshal number into field name"
    | some (Json.arr _), _ => Except.error "cannot unmarshal array into field name"
    | some (Json.obj _), _ => Except.error "cannot unmarshal object into field name"
    | _, some (Json.bool _) => Except.error "cannot unmarshal bool into field arguments"
    | _, some (Json.num _) => Except.error "cannot unmarshal number into field arguments"
    | _, some (Json.str _) => Except.error "cannot unmarshal string into field arguments"
    | _, some (Json.arr _) => Except.error "cannot unmarshal array into field arguments"
    | nv, av =>
      Except.ok
        { name := match nv with | some (Json.str s) => s | _ => ""
          arguments := match av with | some (Json.obj fs) => fs | _ => [] }
  | _ => Except.error "cannot unmarshal non-object into CallToolParams"

/-- `router.MCPHandler`: server identity plus the tool registry
`map[string]types.MonitorTool`. -/
structure MCPHandler where
  serverName : String
  serverVersion : String
  tools : List (String × MonitorTool)

/-- `NewMCPHandler`. -/
def NewMCPHandler (serverName serverVersion : String) : MCPHandler :=
  { serverName := serverName, serverVersion := serverVersion, tools := [] }

/-- `MCPHandler.RegisterTool`: `h.tools[tool.GetName()] = tool`. -/
def MCPHandler.RegisterTool (h : MCPHandler) (tool : MonitorTool) : MCPHandler :=
  { h with tools := insertAssoc h.tools tool.name tool }

/-- Registering a whole sequence of tools in order (as `InitializeTools`
does at startup). -/
def registerAll (h : MCPHandler) (regs : List MonitorTool) : MCPHandler :=
  regs.foldl MCPHandler.RegisterTool h

/-- `MCPHandler.errorResponse`. -/
def MCPHandler.errorResponse (_h : MCPHandler) (req : JSONRPCRequest) (code : Int)
    (message : String) : JSONRPCResponse :=
  { jsonrpc := "2.0", id := req.id, result := none,
    error := some { code := code, message := message } }

/-- `MCPHandler.handleInitialize`. -/
def MCPHandler.handleInitialize (h : MCPHandler) (req : JSONRPCRequest) : JSONRPCResponse :=
  { jsonrpc := "2.0", id := req.id,
    result := some (ResultValue.initializeResult
      { protocolVersion := "2024-11-05"
        toolsListChanged := true
        resourcesSubscribe := false
        resourcesListChanged := false
        promptsListChanged := false
        serverInfo := { name := h.serverName, version := h.serverVersion } })
    error := none }

/-- `MCPHandler.handleInitialized`: always returns nil. -/
def MCPHandler.handleInitialized (_h : MCPHandler) (_req : JSONRPCRequest) :
    Option JSONRPCResponse :=
  none

/-- The descriptor projection performed inside `handleListTools`. -/
def descriptorOf (t : MonitorTool) : ToolDescriptor :=
  { name := t.name, description := t.description, inputSchema := t.inputSchema }

/-- `MCPHandler.handleListTools`: project every registered tool to its
descriptor. -/
def MCPHandler.handleListTools (h : MCPHandler) (req : JSONRPCRequest) : JSONRPCResponse :=
  { jsonrpc := "2.0", id := req.id,
    result := some (ResultValue.toolsList (h.tools.map (fun p => descriptorOf p.2)))
    error := none }

/-- The params actually used by `handleCallTool`: the typed decode is run
only when `req.Params != nil`; otherwise the zero-valued struct is used. -/
def effectiveCallToolParams (params : Json) : Except String CallToolParams :=
  if params.isNull then Except.ok { name := "", arguments := [] }
  else parseCallToolParams params

/-- `MCPHandler.handleCallTool`. -/
def MCPHandler.handleCallTool (h : MCPHandler) (req : JSONRPCRequest) : JSONRPCResponse :=
  match effectiveCallToolParams req.params with
  | Except.error e => h.errorResponse req (-32602) ("Invalid params: " ++ e)
  | Except.ok params =>
    match lookupAssoc h.tools params.name with
    | none => h.errorResponse req (-32602) ("Unknown tool: " ++ params.name)
    | some tool =>
      match tool.execute params.arguments with
      | Except.error err =>
        { jsonrpc := "2.0", id := req.id,
          result := some (ResultValue.callToolResult
            { content := [{ ctype := "text", text := "❌ " ++ err }], isError := true })
          error := none }
      | Except.ok result =>
        { jsonrpc := "2.0", id := req.id,
          result := some (ResultValue.callToolResult
            { content := [{ ctype := "text", text := result }], isError := false })
          error := none }

/-- `MCPHandler.handleListPrompts`: stubbed empty list. -/
def MCPHandler.handleListPrompts (_h : MCPHandler) (req : JSONRPCRequest) : JSONRPCResponse :=
  { jsonrpc := "2.0", id := req.id, result := some ResultValue.promptsList, error := none }

/-- `MCPHandler.handleListResources`: stubbed empty list. -/
def MCPHandler.handleListResources (_h : MCPHandler) (req : JSONRPCRequest) : JSONRPCResponse :=
  { jsonrpc := "2.0", id := req.id, result := some ResultValue.resourcesList, error := none }

/-- `MCPHandler.handleReadResource`: unsupported. -/
def MCPHandler.handleReadResource (h : MCPHandler) (req : JSONRPCRequest) : JSONRPCResponse :=
  h.errorResponse req (-32601) "Resource reading not implemented"

/-- `MCPHandler.HandleRequest`: the method dispatcher. -/
def MCPHandler.HandleRequest (h : MCPHandler) (req : JSONRPCRequest) :
    Option JSONRPCResponse :=
  if req.method = MethodInitialize then some (h.handleInitialize req)
  else if req.method = MethodInitialized ∨ req.method = MethodNotificationInitialized then
    h.handleInitialized req
  else if req.method = MethodListTools then some (h.handleListTools req)
  else if req.method = MethodCallTool then some (h.handleCallTool req)
  else if req.method = MethodListPrompts then some (h.handleListPrompts req)
  else if req.method = MethodListResources then some (h.handleListResources req)
  else if req.method = MethodReadResource then some (h.handleReadResource req)
  else some (h.errorResponse req (-32601) ("Method not found: " ++ req.method))

/-- One input line of the transport, after the lexical level of JSON
parsing has been applied: empty, not valid JSON at all, or a JSON value. -/
inductive Line where
  | empty : Line
  | notJson : Line
  | json (j : Json) : Line

/-- The best-effort secondary parse of `messageLoop`: decode the line into
`map[string]interface{}` and probe for an `id` key.  It recovers an id only
from a JSON object; presence of the key counts even when its value is
`null`. -/
def recoverLineId : Line → Option Json
  | Line.json (Json.obj fields) => lookupLast fields "id"
  | _ => none

/-- One iteration of `Router.messageLoop` on one input line, returning the
response written to the output stream, if any. -/
def processLine (h : MCPHandler) (l : Line) : Option JSONRPCResponse :=
  match l with
  | Line.empty => none
  | Line.notJson => none
  | Line.json j =>
    match parseRequest j with
    | Except.error e =>
      match recoverLineId (Line.json j) with
      | some idv =>
        some { jsonrpc := "2.0", id := idv, result := none,
               error := some { code := -32700, message := "Parse error: " ++ e } }
      | none => none
    | Except.ok req =>
      let isNotification := req.id.isNull
      match h.HandleRequest req with
      | some response => if isNotification then none else some response
      | none => none

/-- `Router.messageLoop` over a whole input stream: the list of lines
written to the output stream, in order. -/
def messageLoop (h : MCPHandler) (lines : List Line) : List JSONRPCResponse :=
  lines.filterMap (processLine h)

/-- `storage.CacheItem`: a value together with its absolute expiry
instant. -/
structure CacheItem (α : Type) where
  value : α
  expiresAt : Int

/-- `storage.MemoryCache`: the map from keys to cache items.  The mutex
serializes access; in this sequential model each operation acts on the
whole state. -/
structure MemoryCache (α : Type) where
  items : List (String × CacheItem α)

/-- `NewMemoryCache` without the sweeping goroutine, which is modelled by
explicit applications of `cleanupExpired`. -/
def NewMemoryCache (α : Type) : MemoryCache α :=
  { items := [] }

/-- `MemoryCache.Set`: store `value` with `expiresAt = now + duration`,
overwriting any entry for `key`.  `duration` is an `Int` because Go's
`time.Duration` is a signed integer. -/
def MemoryCache.Set {α : Type} (mc : MemoryCache α) (key : String) (value : α)
    (duration : Int) (now : Int) : MemoryCache α :=
  { items := insertAssoc mc.items key { value := value, expiresAt := now + duration } }

/-- `MemoryCache.Get`: `(nil, false)` on a missing key; on a present key,
`(nil, false)` when `now.After(expiresAt)` (strictly later), else
`(value, true)`. -/
def MemoryCache.Get {α : Type} (mc : MemoryCache α) (key : String) (now : Int) :
    Option α × Bool :=
  match lookupAssoc mc.items key with
  | none => (none, false)
  | some item =>
    if item.expiresAt < now then (none, false) else (some item.value, true)

/-- `MemoryCache.Delete`: `delete(mc.items, key)`.  This is also the body
of the deferred goroutine that `Get` spawns on an expired hit (lazy
expiry). -/
def MemoryCache.Delete {α : Type} (mc : MemoryCache α) (key : String) : MemoryCache α :=
  { items := mc.items.filter (fun p => !(p.1 == key)) }

/-- `MemoryCache.Clear`. -/
def MemoryCache.Clear {α : Type} (_mc : MemoryCache α) : MemoryCache α :=
  { items := [] }

/-- `MemoryCache.Size`: `len(mc.items)`. -/
def MemoryCache.Size {α : Type} (mc : MemoryCache α) : Nat :=
  mc.items.length

/-- `MemoryCache.Keys`. -/
def MemoryCache.Keys {α : Type} (mc : MemoryCache α) : List String :=
  mc.items.map Prod.fst

/-- `MemoryCache.cleanupExpired`: the body of one background sweep, run
every five minutes by the `cleanup` goroutine — delete every entry with
`now.After(expiresAt)`. -/
def MemoryCache.cleanupExpired {α : Type} (mc : MemoryCache α) (now : Int) : MemoryCache α :=
  { items := mc.items.filter (fun p => !(decide (p.2.expiresAt < now))) }

/-- `MemoryCache.GetWithTTL`: like `Get` but also reporting the remaining
time to expiry on a fresh hit. -/
def MemoryCache.GetWithTTL {α : Type} (mc : MemoryCache α) (key : String) (now : Int) :
    Option α × Int × Bool :=
  match lookupAssoc mc.items key with
  | none => (none, 0, false)
  | some item =>
    if item.expiresAt < now then (none, 0, false)
    else (some item.value, item.expiresAt - now, true)

/-- Whether a line fails the typed decode into the request envelope (the
`json.Unmarshal(line, &req)` error branch of `messageLoop`).  An empty
line is skipped before any parsing, so it does not count as failing. -/
def lineParseFails : Line → Bool
  | Line.empty => false
  | Line.notJson => true
  | Line.json j =>
    match parseRequest j with
    | Except.error _ => true
    | Except.ok _ => false

/-- A response carries exactly one of `result` and `error` (never both,
never neither). -/
def exactlyOneResultOrError (resp : JSONRPCResponse) : Prop :=
  (resp.result.isSome = true ∧ resp.error = none) ∨
    (resp.result = none ∧ resp.error.isSome = true)

/-- A tool whose `Execute` always fails, for exercising the failure
path of `handleCallTool` on concrete inputs. -/
def failTool : MonitorTool :=
  { name := "fail_tool", description := "always fails", inputSchema := Json.null,
    execute := fun _ => Except.error "boom" }

/-- A small concrete handler with one registered tool. -/
def sampleHandler : MCPHandler :=
  (NewMCPHandler "system-monitor-mcp" "1.0.0").RegisterTool failTool

/-! ### Helper lemmas about the association-list model of Go maps -/

theorem lookupAssoc_nil {β : Type} (k : String) :
    lookupAssoc ([] : List (String × β)) k = none := rfl

theorem lookupAssoc_cons_pos {β : Type} (p : String × β) (l : List (String × β)) (k : String)
    (hp : (p.1 == k) = true) : lookupAssoc (p :: l) k = some p.2 := by
  unfold lookupAssoc
  rw [List.find?_cons_of_pos (p := fun q : String × β => q.1 == k) _ hp]
  rfl

theorem lookupAssoc_cons_neg {β : Type} (p : String × β) (l : List (String × β)) (k : String)
    (hp : ¬ (p.1 == k) = true) : lookupAssoc (p :: l) k = lookupAssoc l k := by
  unfold lookupAssoc
  rw [List.find?_cons_of_neg (p := fun q : String × β => q.1 == k) _ hp]

theorem lookupAssoc_insertAssoc_self {β : Type} (ts : List (String × β)) (k : String) (v : β) :
    lookupAssoc (insertAssoc ts k v) k = some v := by
  induction ts with
  | nil =>
    rw [insertAssoc, if_neg (by simp), List.nil_append]
    exact lookupAssoc_cons_pos _ _ _ (by simp)
  | cons p rest ih =>
    rw [insertAssoc]
    split_ifs with hany
    · simp only [List.map_cons]
      by_cases hp : (p.1 == k) = true
      · rw [if_pos hp]
        exact lookupAssoc_cons_pos _ _ _ (by simp)
      · rw [if_neg hp, lookupAssoc_cons_neg _ _ _ hp]
        have hr : (rest.any (fun q => q.1 == k)) = true := by
          rcases List.any_eq_true.mp hany with ⟨q, hq, hqk⟩
          rcases List.mem_cons.mp hq with rfl | hq'
          · exact absurd hqk hp
          · exact List.any_eq_true.mpr ⟨q, hq', hqk⟩
        rw [insertAssoc, if_pos hr] at ih
        exact ih
    · have hp : ¬ (p.1 == k) = true := fun hpk =>
        hany (List.any_eq_true.mpr ⟨p, List.mem_cons_self _ _, hpk⟩)
      have hr : ¬ (rest.any (fun q => q.1 == k)) = true := by
        intro hrk
        rcases List.any_eq_true.mp hrk with ⟨q, hq, hqk⟩
        exact hany (List.any_eq_true.mpr ⟨q, List.mem_cons_of_mem _ hq, hqk⟩)
      rw [List.cons_append, lookupAssoc_cons_neg _ _ _ hp]
      rw [insertAssoc, if_neg hr] at ih
      exact ih

theorem lookupAssoc_insertAssoc_ne {β : Type} (ts : List (String × β)) (k n : String) (v : β)
    (hne : ¬ (n = k)) : lookupAssoc (insertAssoc ts k v) n = lookupAssoc ts n := by
  induction ts with
  | nil =>
    rw [insertAssoc, if_neg (by simp), List.nil_append,
      lookupAssoc_cons_neg _ _ _ (by simp; exact fun h => hne h.symm)]
  | cons p rest ih =>
    rw [insertAssoc]
    split_ifs with hany
    · simp only [List.map_cons]
      by_cases hp : (p.1 == k) = true
      · rw [if_pos hp]
        have hkn : ¬ (((k, v) : String × β).1 == n) = true := by
          simp only [beq_iff_eq]
          exact fun h => hne h.symm
        have hpn : ¬ (p.1 == n) = true := by
          simp only [beq_iff_eq] at hp ⊢
          rw [hp]
          exact fun h => hne h.symm
        rw [lookupAssoc_cons_neg _ _ _ hkn, lookupAssoc_cons_neg _ _ _ hpn]
        by_cases hr : (rest.any (fun q => q.1 == k)) = true
        · rw [insertAssoc, if_pos hr] at ih
          exact ih
        · have hmap : rest.map (fun q => if q.1 == k then (k, v) else q) = rest := by
            have hcongr : ∀ q ∈ rest, (if q.1 == k then (k, v) else q) = q := by
              intro q hq
              have hqk : ¬ (q.1 == k) = true := fun hqk =>
                hr (List.any_eq_true.mpr ⟨q, hq, hqk⟩)
              rw [if_neg hqk]
            exact (List.map_congr_left hcongr).trans (List.map_id rest)
          rw [hmap]
      · rw [if_neg hp]
        by_cases hpn : (p.1 == n) = true
        · rw [lookupAssoc_cons_pos _ _ _ hpn, lookupAssoc_cons_pos _ _ _ hpn]
        · rw [lookupAssoc_cons_neg _ _ _ hpn, lookupAssoc_cons_neg _ _ _ hpn]
          have hr : (rest.any (fun q => q.1 == k)) = true := by
            rcases List.any_eq_true.mp hany with ⟨q, hq, hqk⟩
            rcases List.mem_cons.mp hq with rfl | hq'
            · exact absurd hqk hp
            · exact List.any_eq_true.mpr ⟨q, hq', hqk⟩
          rw [insertAssoc, if_pos hr] at ih
          exact ih
    · have hp : ¬ (p.1 == k) = true := fun hpk =>
        hany (List.any_eq_true.mpr ⟨p, List.mem_cons_self _ _, hpk⟩)
      have hr : ¬ (rest.any (fun q => q.1 == k)) = true := by
        intro hrk
        rcases List.any_eq_true.mp hrk with ⟨q, hq, hqk⟩
        exact hany (List.any_eq_true.mpr ⟨q, List.mem_cons_of_mem _ hq, hqk⟩)
      rw [List.cons_append]
      by_cases hpn : (p.1 == n) = true
      · rw [lookupAssoc_cons_pos _ _ _ hpn, lookupAssoc_cons_pos _ _ _ hpn]
      · rw [lookupAssoc_cons_neg _ _ _ hpn, lookupAssoc_cons_neg _ _ _ hpn]
        rw [insertAssoc, if_neg hr] at ih
        exact ih

/-- The keys of an association list (the key set of a Go map). -/
def keysAssoc {β : Type} (ts : List (String × β)) : List String := ts.map Prod.fst

theorem any_eq_true_iff_mem_keys {β : Type} (ts : List (String × β)) (k : String) :
    (ts.any (fun q => q.1 == k) = true) ↔ k ∈ keysAssoc ts := by
  rw [List.any_eq_true]
  constructor
  · rintro ⟨q, hq, hqk⟩
    exact (beq_iff_eq.mp hqk) ▸ List.mem_map_of_mem Prod.fst hq
  · intro hk
    rcases List.mem_map.mp hk with ⟨q, hq, hfst⟩
    exact ⟨q, hq, beq_iff_eq.mpr hfst⟩

theorem keysAssoc_insertAssoc_pos {β : Type} (ts : List (String × β)) (k : String) (v : β)
    (h : ts.any (fun q => q.1 == k) = true) :
    keysAssoc (insertAssoc ts k v) = keysAssoc ts := by
  rw [insertAssoc, if_pos h]
  unfold keysAssoc
  rw [List.map_map]
  apply List.map_congr_left
  intro q _
  by_cases hqk : (q.1 == k) = true
  · simp only [Function.comp_apply, if_pos hqk]
    exact (beq_iff_eq.mp hqk).symm
  · simp only [Function.comp_apply, if_neg hqk]

theorem keysAssoc_insertAssoc_neg {β : Type} (ts : List (String × β)) (k : String) (v : β)
    (h : ¬ ts.any (fun q => q.1 == k) = true) :
    keysAssoc (insertAssoc ts k v) = keysAssoc ts ++ [k] := by
  rw [insertAssoc, if_neg h]
  unfold keysAssoc
  rw [List.map_append]
  rfl

theorem nodup_keysAssoc_insertAssoc {β : Type} (ts : List (String × β)) (k : String) (v : β)
    (h : (keysAssoc ts).Nodup) : (keysAssoc (insertAssoc ts k v)).Nodup := by
  by_cases hany : ts.any (fun q => q.1 == k) = true
  · rw [keysAssoc_insertAssoc_pos _ _ _ hany]
    exact h
  · rw [keysAssoc_insertAssoc_neg _ _ _ hany]
    rw [List.nodup_append]
    refine ⟨h, List.nodup_singleton k, ?_⟩
    intro a ha hak
    rcases List.mem_singleton.mp hak with rfl
    exact hany ((any_eq_true_iff_mem_keys _ _).mpr ha)

/-- Invariant of the tool registry: each binding's key is its tool's
name (`RegisterTool` is the only writer and uses `tool.GetName()` as the
key). -/
def toolsWellFormed (ts : List (String × MonitorTool)) : Prop :=
  ∀ p ∈ ts, p.1 = p.2.name

theorem toolsWellFormed_insertAssoc (ts : List (String × MonitorTool)) (t : MonitorTool)
    (h : toolsWellFormed ts) : toolsWellFormed (insertAssoc ts t.name t) := by
  intro p hp
  rw [insertAssoc] at hp
  split_ifs at hp with hany
  · rcases List.mem_map.mp hp with ⟨q, hq, rfl⟩
    by_cases hqk : (q.1 == t.name) = true
    · rw [if_pos hqk]
    · rw [if_neg hqk]
      exact h q hq
  · rcases List.mem_append.mp hp with hq | hq
    · exact h p hq
    · rcases List.mem_singleton.mp hq with rfl
      rfl

/-- With unique keys, membership of a binding is the same as a successful
lookup. -/
theorem lookupAssoc_of_mem_of_nodup {β : Type} (ts : List (String × β)) (p : String × β)
    (hmem : p ∈ ts) (hnodup : (keysAssoc ts).Nodup) : lookupAssoc ts p.1 = some p.2 := by
  induction ts with
  | nil => cases hmem
  | cons q rest ih =>
    rcases List.mem_cons.mp hmem with rfl | hmem'
    · exact lookupAssoc_cons_pos _ _ _ (by simp)
    · have hq : ¬ (q.1 == p.1) = true := by
        simp only [beq_iff_eq]
        intro hq1
        have hkeys := hnodup
        unfold keysAssoc at hkeys
        rw [List.map_cons, List.nodup_cons] at hkeys
        exact hkeys.1 (hq1 ▸ List.mem_map_of_mem Prod.fst hmem')
      rw [lookupAssoc_cons_neg _ _ _ hq]
      apply ih hmem'
      unfold keysAssoc at hnodup ⊢
      rw [List.map_cons, List.nodup_cons] at hnodup
      exact hnodup.2

/-- The last tool in a registration sequence bearing a given name: the
"last registration wins" semantics of repeated map assignment. -/
def findLast (regs : List MonitorTool) (n : String) : Option MonitorTool :=
  regs.reverse.find? (fun t => t.name == n)

theorem find?_singleton_name (r : MonitorTool) (n : String) :
    List.find? (fun t => t.name == n) [r] =
      if (r.name == n) = true then some r else none := by
  cases hrn : (r.name == n) with
  | true => simp [List.find?, hrn]
  | false => simp [List.find?, hrn]

theorem findLast_cons (r : MonitorTool) (rs : List MonitorTool) (n : String) :
    findLast (r :: rs) n =
      match findLast rs n with
      | some t => some t
      | none => if (r.name == n) = true then some r else none := by
  unfold findLast
  rw [List.reverse_cons, List.find?_append]
  cases hfind : rs.reverse.find? (fun t => t.name == n) with
  | some t => rfl
  | none => exact find?_singleton_name r n

theorem registerAll_cons (h : MCPHandler) (r : MonitorTool) (rs : List MonitorTool) :
    registerAll h (r :: rs) = registerAll (h.RegisterTool r) rs := rfl

/-- Folding a registration sequence: the final lookup of `n` is the last
registration with that name, falling back to the initial registry. -/
theorem lookupAssoc_registerAll (h : MCPHandler) (regs : List MonitorTool) (n : String) :
    lookupAssoc (registerAll h regs).tools n =
      match findLast regs n with
      | some t => some t
      | none => lookupAssoc h.tools n := by
  induction regs generalizing h with
  | nil => rfl
  | cons r rs ih =>
    rw [registerAll_cons, ih (h.RegisterTool r), findLast_cons]
    cases hfind : findLast rs n with
    | some t => rfl
    | none =>
      by_cases hrn : (r.name == n) = true
      · rw [if_pos hrn]
        have hn : n = r.name := (beq_iff_eq.mp hrn).symm
        subst hn
        exact lookupAssoc_insertAssoc_self h.tools r.name r
      · rw [if_neg hrn]
        exact lookupAssoc_insertAssoc_ne h.tools r.name n r
          (fun hn => hrn (beq_iff_eq.mpr hn.symm))

theorem lookupAssoc_eq_none_iff {β : Type} (ts : List (String × β)) (n : String) :
    lookupAssoc ts n = none ↔ n ∉ keysAssoc ts := by
  unfold lookupAssoc
  rw [Option.map_eq_none', List.find?_eq_none]
  constructor
  · intro hall hn
    rcases List.mem_map.mp hn with ⟨q, hq, hfst⟩
    exact hall q hq (beq_iff_eq.mpr hfst)
  · intro hn q hq hqn
    exact hn ((beq_iff_eq.mp hqn) ▸ List.mem_map_of_mem Prod.fst hq)

theorem findLast_isSome_iff (regs : List MonitorTool) (n : String) :
    (findLast regs n).isSome = true ↔ n ∈ regs.map MonitorTool.name := by
  unfold findLast
  rw [List.find?_isSome]
  constructor
  · rintro ⟨t, ht, htn⟩
    exact (beq_iff_eq.mp htn) ▸ List.mem_map_of_mem MonitorTool.name (List.mem_reverse.mp ht)
  · intro hn
    rcases List.mem_map.mp hn with ⟨t, ht, hname⟩
    exact ⟨t, List.mem_reverse.mpr ht, beq_iff_eq.mpr hname⟩

theorem registerAll_keys_nodup (h : MCPHandler) (regs : List MonitorTool)
    (hn : (keysAssoc h.tools).Nodup) : (keysAssoc (registerAll h regs).tools).Nodup := by
  induction regs generalizing h with
  | nil => exact hn
  | cons r rs ih => exact ih (h.RegisterTool r) (nodup_keysAssoc_insertAssoc _ _ _ hn)

theorem registerAll_wellFormed (h : MCPHandler) (regs : List MonitorTool)
    (hw : toolsWellFormed h.tools) : toolsWellFormed (registerAll h regs).tools := by
  induction regs generalizing h with
  | nil => exact hw
  | cons r rs ih => exact ih (h.RegisterTool r) (toolsWellFormed_insertAssoc _ _ hw)

theorem lookupAssoc_registerAll_empty (sn sv : String) (regs : List MonitorTool) (n : String) :
    lookupAssoc (registerAll (NewMCPHandler sn sv) regs).tools n = findLast regs n := by
  rw [lookupAssoc_registerAll]
  cases hfind : findLast regs n with
  | some t => rfl
  | none => rfl

/-! ### Claim theorems -/

/-- C6: For every sequence of tool registrations, the `tools/list`
response contains exactly one descriptor per distinct registered name,
with no duplicates even when the same name is registered twice, and the
descriptor of a twice-registered name is the one from the last
registration. -/
theorem listTools_one_descriptor_per_name (sn sv jr : String) (regs : List MonitorTool)
    (i q : Json) :
    ∃ ds : List ToolDescriptor,
      (registerAll (NewMCPHandler sn sv) regs).HandleRequest
          { jsonrpc := jr, id := i, method := MethodListTools, params := q } =
        some { jsonrpc := "2.0", id := i,
               result := some (ResultValue.toolsList ds), error := none }
      ∧ (ds.map ToolDescriptor.name).Nodup
      ∧ (∀ n, n ∈ ds.map ToolDescriptor.name ↔ n ∈ regs.map MonitorTool.name)
      ∧ (∀ d ∈ ds, ∃ t, findLast regs d.name = some t ∧ d = descriptorOf t) := by
  have hwf : toolsWellFormed (registerAll (NewMCPHandler sn sv) regs).tools :=
    registerAll_wellFormed _ _ (fun p hp => absurd hp (List.not_mem_nil p))
  have hnodup : (keysAssoc (registerAll (NewMCPHandler sn sv) regs).tools).Nodup :=
    registerAll_keys_nodup _ _ List.nodup_nil
  have hnames :
      ((registerAll (NewMCPHandler sn sv) regs).tools.map
          (fun p => descriptorOf p.2)).map ToolDescriptor.name =
        keysAssoc (registerAll (NewMCPHandler sn sv) regs).tools := by
    rw [List.map_map]
    apply List.map_congr_left
    intro p hp
    exact (hwf p hp).symm
  refine ⟨(registerAll (NewMCPHandler sn sv) regs).tools.map (fun p => descriptorOf p.2),
    ?_, ?_, ?_, ?_⟩
  · rfl
  · rw [hnames]
    exact hnodup
  · intro n
    rw [hnames]
    constructor
    · intro hmem
      have hlook : ¬ lookupAssoc (registerAll (NewMCPHandler sn sv) regs).tools n = none :=
        fun hnone => (lookupAssoc_eq_none_iff _ _).mp hnone hmem
      rw [lookupAssoc_registerAll_empty] at hlook
      exact (findLast_isSome_iff regs n).mp (Option.ne_none_iff_isSome.mp hlook)
    · intro hmem
      by_contra hnot
      have hnone : lookupAssoc (registerAll (NewMCPHandler sn sv) regs).tools n = none :=
        (lookupAssoc_eq_none_iff _ _).mpr hnot
      rw [lookupAssoc_registerAll_empty] at hnone
      have hsome := (findLast_isSome_iff regs n).mpr hmem
      rw [hnone] at hsome
      cases hsome
  · intro d hd
    rcases List.mem_map.mp hd with ⟨p, hp, rfl⟩
    refine ⟨p.2, ?_, rfl⟩
    have hname : (descriptorOf p.2).name = p.1 := (hwf p hp).symm
    rw [hname, ← lookupAssoc_registerAll_empty sn sv regs p.1]
    exact lookupAssoc_of_mem_of_nodup _ p hp hnodup

/-- C1: for every input line that parses as the request envelope with an
absent or null id, the transport loop writes nothing, regardless of the
method and of what the dispatcher returned — the suppression is in
`processLine`, not in the dispatcher. -/
theorem notification_never_produces_output (h : MCPHandler) (j : Json) (req : JSONRPCRequest)
    (hparse : parseRequest j = Except.ok req) (hid : req.id.isNull = true) :
    processLine h (Line.json j) = none := by
  unfold processLine
  simp only [hparse]
  cases hresp : h.HandleRequest req with
  | some r => simp only [hresp, hid, if_true]
  | none => simp only [hresp]

theorem notification_never_produces_output_witness :
    parseRequest (Json.obj [("method", Json.str "tools/list")]) =
        Except.ok { jsonrpc := "", id := Json.null, method := "tools/list",
                    params := Json.null }
      ∧ Json.null.isNull = true
      ∧ processLine sampleHandler (Line.json (Json.obj [("method", Json.str "tools/list")])) =
          none :=
  ⟨rfl, rfl, notification_never_produces_output sampleHandler _ _ rfl rfl⟩

/-- C8: requests whose method is `notifications/initialized` or its legacy
alias get `nil` from the dispatcher even with a non-null id, so no output
line is ever produced for them. -/
theorem initialized_always_suppressed (h : MCPHandler) (jr : String) (i q : Json) :
    h.HandleRequest
        { jsonrpc := jr, id := i, method := MethodInitialized, params := q } = none
    ∧ h.HandleRequest
        { jsonrpc := jr, id := i, method := MethodNotificationInitialized, params := q } = none
    ∧ (∀ (j : Json) (req : JSONRPCRequest), parseRequest j = Except.ok req →
        (req.method = MethodInitialized ∨ req.method = MethodNotificationInitialized) →
        processLine h (Line.json j) = none) := by
  refine ⟨rfl, rfl, ?_⟩
  intro j req hparse hm
  have hresp : h.HandleRequest req = none := by
    unfold MCPHandler.HandleRequest
    rcases hm with hm | hm <;>
      rw [hm, if_neg (by decide), if_pos (by simp [MethodInitialized,
        MethodNotificationInitialized])] <;> rfl
  unfold processLine
  simp only [hparse, hresp]

theorem initialized_always_suppressed_witness :
    sampleHandler.HandleRequest
        { jsonrpc := "2.0", id := Json.num 9, method := MethodInitialized,
          params := Json.null } = none
    ∧ sampleHandler.HandleRequest
        { jsonrpc := "2.0", id := Json.num 9, method := MethodNotificationInitialized,
          params := Json.null } = none
    ∧ processLine sampleHandler
        (Line.json (Json.obj [("id", Json.num 9),
          ("method", Json.str "notifications/initialized")])) = none := by
  refine ⟨(initialized_always_suppressed sampleHandler "2.0" (Json.num 9) Json.null).1,
    (initialized_always_suppressed sampleHandler "2.0" (Json.num 9) Json.null).2.1,
    (initialized_always_suppressed sampleHandler "2.0" (Json.num 9) Json.null).2.2
      _ _ rfl (Or.inr rfl)⟩

/-- C2: a `tools/call` on a registered tool whose execution fails yields a
successful envelope — `error` absent, `result` a content object flagged
`isError` whose single text item is the failure marker plus the tool's
error message. -/
theorem toolFailure_flagged_content (h : MCPHandler) (req : JSONRPCRequest)
    (params : CallToolParams) (tool : MonitorTool) (msg : String)
    (hm : req.method = MethodCallTool)
    (hp : effectiveCallToolParams req.params = Except.ok params)
    (hl : lookupAssoc h.tools params.name = some tool)
    (he : tool.execute params.arguments = Except.error msg) :
    h.HandleRequest req =
      some { jsonrpc := "2.0", id := req.id,
             result := some (ResultValue.callToolResult
               { content := [{ ctype := "text", text := "❌ " ++ msg }], isError := true })
             error := none } := by
  unfold MCPHandler.HandleRequest
  rw [hm, if_neg (by decide), if_neg (by decide), if_neg (by decide), if_pos rfl]
  unfold MCPHandler.handleCallTool
  simp only [hp, hl, he]

theorem toolFailure_flagged_content_witness :
    effectiveCallToolParams (Json.obj [("name", Json.str "fail_tool")]) =
        Except.ok { name := "fail_tool", arguments := [] }
      ∧ lookupAssoc sampleHandler.tools "fail_tool" = some failTool
      ∧ failTool.execute [] = Except.error "boom"
      ∧ sampleHandler.HandleRequest
          { jsonrpc := "2.0", id := Json.num 3, method := MethodCallTool,
            params := Json.obj [("name", Json.str "fail_tool")] } =
        some { jsonrpc := "2.0", id := Json.num 3,
               result := some (ResultValue.callToolResult
                 { content := [{ ctype := "text", text := "❌ boom" }], isError := true })
               error := none } :=
  ⟨rfl, rfl, rfl,
    toolFailure_flagged_content sampleHandler _ _ failTool "boom" rfl rfl rfl rfl⟩

/-- C3: a `tools/call` whose params decode but whose name is not
registered yields an error response with code -32602 and the request's id;
structurally malformed params also yield code -32602 with the request's
id. -/
theorem callTool_unknown_or_invalid_params (h : MCPHandler) (req : JSONRPCRequest)
    (hm : req.method = MethodCallTool) :
    (∀ params, effectiveCallToolParams req.params = Except.ok params →
      lookupAssoc h.tools params.name = none →
      h.HandleRequest req =
        some { jsonrpc := "2.0", id := req.id, result := none,
               error := some { code := -32602,
                               message := "Unknown tool: " ++ params.name } })
    ∧ (∀ e, effectiveCallToolParams req.params = Except.error e →
      h.HandleRequest req =
        some { jsonrpc := "2.0", id := req.id, result := none,
               error := some { code := -32602, message := "Invalid params: " ++ e } }) := by
  constructor
  · intro params hp hl
    unfold MCPHandler.HandleRequest
    rw [hm, if_neg (by decide), if_neg (by decide), if_neg (by decide), if_pos rfl]
    unfold MCPHandler.handleCallTool
    simp only [hp, hl]
    rfl
  · intro e hp
    unfold MCPHandler.HandleRequest
    rw [hm, if_neg (by decide), if_neg (by decide), if_neg (by decide), if_pos rfl]
    unfold MCPHandler.handleCallTool
    simp only [hp]
    rfl

theorem callTool_unknown_or_invalid_params_witness :
    effectiveCallToolParams (Json.obj [("name", Json.str "nope")]) =
        Except.ok { name := "nope", arguments := [] }
      ∧ lookupAssoc sampleHandler.tools "nope" = none
      ∧ sampleHandler.HandleRequest
          { jsonrpc := "2.0", id := Json.num 4, method := MethodCallTool,
            params := Json.obj [("name", Json.str "nope")] } =
        some { jsonrpc := "2.0", id := Json.num 4, result := none,
               error := some { code := -32602, message := "Unknown tool: nope" } }
      ∧ (∃ e, effectiveCallToolParams (Json.str "x") = Except.error e
          ∧ sampleHandler.HandleRequest
              { jsonrpc := "2.0", id := Json.num 5, method := MethodCallTool,
                params := Json.str "x" } =
            some { jsonrpc := "2.0", id := Json.num 5, result := none,
                   error := some { code := -32602,
                                   message := "Invalid params: " ++ e } }) :=
  ⟨rfl, rfl,
    (callTool_unknown_or_invalid_params sampleHandler
      { jsonrpc := "2.0", id := Json.num 4, method := MethodCallTool,
        params := Json.obj [("name", Json.str "nope")] } rfl).1 _ rfl rfl,
    ⟨"cannot unmarshal non-object into CallToolParams", rfl,
      (callTool_unknown_or_invalid_params sampleHandler
        { jsonrpc := "2.0", id := Json.num 5, method := MethodCallTool,
          params := Json.str "x" } rfl).2 _ rfl⟩⟩

/-- C10: a `tools/call` whose params field is entirely absent leaves the
parsed tool name as the empty string, and (no tool being registered under
the empty name) is answered with code -32602 and message
"Unknown tool: ", not with a distinct invalid-params error. -/
theorem callTool_absent_params_empty_name (h : MCPHandler) (req : JSONRPCRequest)
    (hm : req.method = MethodCallTool) (hq : req.params = Json.null)
    (hl : lookupAssoc h.tools "" = none) :
    effectiveCallToolParams req.params = Except.ok { name := "", arguments := [] }
    ∧ h.HandleRequest req =
        some { jsonrpc := "2.0", id := req.id, result := none,
               error := some { code := -32602, message := "Unknown tool: " } } := by
  have hp : effectiveCallToolParams req.params = Except.ok { name := "", arguments := [] } := by
    rw [hq]
    rfl
  refine ⟨hp, ?_⟩
  unfold MCPHandler.HandleRequest
  rw [hm, if_neg (by decide), if_neg (by decide), if_neg (by decide), if_pos rfl]
  unfold MCPHandler.handleCallTool
  simp only [hp, hl]
  rfl

theorem callTool_absent_params_empty_name_witness :
    lookupAssoc sampleHandler.tools "" = none
    ∧ (effectiveCallToolParams Json.null = Except.ok { name := "", arguments := [] }
      ∧ sampleHandler.HandleRequest
          { jsonrpc := "2.0", id := Json.num 6, method := MethodCallTool,
            params := Json.null } =
        some { jsonrpc := "2.0", id := Json.num 6, result := none,
               error := some { code := -32602, message := "Unknown tool: " } }) :=
  ⟨rfl, callTool_absent_params_empty_name sampleHandler
    { jsonrpc := "2.0", id := Json.num 6, method := MethodCallTool, params := Json.null }
    rfl rfl rfl⟩

theorem handleCallTool_exactlyOne (h : MCPHandler) (req : JSONRPCRequest) :
    exactlyOneResultOrError (h.handleCallTool req) := by
  unfold MCPHandler.handleCallTool
  split
  · exact Or.inr ⟨rfl, rfl⟩
  · split
    · exact Or.inr ⟨rfl, rfl⟩
    · split
      · exact Or.inl ⟨rfl, rfl⟩
      · exact Or.inl ⟨rfl, rfl⟩

/-- C7: every non-nil response built by the dispatcher, and every response
written by the transport loop (including its parse-error path), carries
exactly one of `result` and `error`. -/
theorem responses_have_exactly_one_of_result_error (h : MCPHandler) :
    (∀ req resp, h.HandleRequest req = some resp → exactlyOneResultOrError resp)
    ∧ (∀ l resp, processLine h l = some resp → exactlyOneResultOrError resp) := by
  have hdisp : ∀ req resp, h.HandleRequest req = some resp → exactlyOneResultOrError resp := by
    intro req resp hres
    unfold MCPHandler.HandleRequest at hres
    split_ifs at hres
    · injection hres with he
      subst he
      exact Or.inl ⟨rfl, rfl⟩
    · simp [MCPHandler.handleInitialized] at hres
    · injection hres with he
      subst he
      exact Or.inl ⟨rfl, rfl⟩
    · injection hres with he
      subst he
      exact handleCallTool_exactlyOne h req
    · injection hres with he
      subst he
      exact Or.inl ⟨rfl, rfl⟩
    · injection hres with he
      subst he
      exact Or.inl ⟨rfl, rfl⟩
    · injection hres with he
      subst he
      exact Or.inr ⟨rfl, rfl⟩
    · injection hres with he
      subst he
      exact Or.inr ⟨rfl, rfl⟩
  refine ⟨hdisp, ?_⟩
  intro l resp hres
  cases l with
  | empty => cases hres
  | notJson => cases hres
  | json j =>
    unfold processLine at hres
    cases hp : parseRequest j with
    | error e =>
      simp only [hp] at hres
      cases hi : recoverLineId (Line.json j) with
      | some idv =>
        simp only [hi] at hres
        injection hres with he
        subst he
        exact Or.inr ⟨rfl, rfl⟩
      | none =>
        simp only [hi] at hres
        cases hres
    | ok req =>
      simp only [hp] at hres
      cases hr : h.HandleRequest req with
      | some r =>
        simp only [hr] at hres
        by_cases hn : req.id.isNull = true
        · rw [if_pos hn] at hres
          cases hres
        · rw [if_neg hn] at hres
          injection hres with he
          subst he
          exact hdisp req r hr
      | none =>
        simp only [hr] at hres
        cases hres

theorem responses_have_exactly_one_of_result_error_witness :
    sampleHandler.HandleRequest
        { jsonrpc := "2.0", id := Json.num 1, method := MethodListTools,
          params := Json.null } =
      some { jsonrpc := "2.0", id := Json.num 1,
             result := some (ResultValue.toolsList [descriptorOf failTool]), error := none }
    ∧ exactlyOneResultOrError
        { jsonrpc := "2.0", id := Json.num 1,
          result := some (ResultValue.toolsList [descriptorOf failTool]), error := none } :=
  ⟨rfl, (responses_have_exactly_one_of_result_error sampleHandler).1
    { jsonrpc := "2.0", id := Json.num 1, method := MethodListTools, params := Json.null }
    { jsonrpc := "2.0", id := Json.num 1,
      result := some (ResultValue.toolsList [descriptorOf failTool]), error := none } rfl⟩

/-- C4: a line that fails the typed envelope decode is answered through
the best-effort secondary parse: if an id is recoverable the loop emits
exactly one -32700 parse-error response carrying that id, otherwise it
emits nothing; in both cases the loop continues with the remaining
lines. -/
theorem malformed_line_recovery (h : MCPHandler) (l : Line) (rest : List Line)
    (hf : lineParseFails l = true) :
    (recoverLineId l = none → messageLoop h (l :: rest) = messageLoop h rest)
    ∧ (∀ idv, recoverLineId l = some idv →
        ∃ msg, messageLoop h (l :: rest) =
          { jsonrpc := "2.0", id := idv, result := none,
            error := some { code := -32700, message := msg } } :: messageLoop h rest) := by
  constructor
  · intro hnone
    cases l with
    | empty => cases hf
    | notJson =>
      unfold messageLoop
      rw [List.filterMap_cons]
      rfl
    | json j =>
      unfold messageLoop
      rw [List.filterMap_cons]
      cases hp : parseRequest j with
      | ok req =>
        unfold lineParseFails at hf
        simp only [hp] at hf
        cases hf
      | error e =>
        have hpl : processLine h (Line.json j) = none := by
          unfold processLine
          simp only [hp, hnone]
        rw [hpl]
  · intro idv hid
    cases l with
    | empty => cases hf
    | notJson => cases hid
    | json j =>
      cases hp : parseRequest j with
      | ok req =>
        unfold lineParseFails at hf
        simp only [hp] at hf
        cases hf
      | error e =>
        refine ⟨"Parse error: " ++ e, ?_⟩
        unfold messageLoop
        rw [List.filterMap_cons]
        have hpl : processLine h (Line.json j) =
            some { jsonrpc := "2.0", id := idv, result := none,
                   error := some { code := -32700, message := "Parse error: " ++ e } } := by
          unfold processLine
          simp only [hp, hid]
        rw [hpl]

theorem malformed_line_recovery_witness :
    lineParseFails (Line.json (Json.obj [("id", Json.num 7), ("method", Json.num 5)])) = true
    ∧ recoverLineId (Line.json (Json.obj [("id", Json.num 7), ("method", Json.num 5)])) =
        some (Json.num 7)
    ∧ (∃ msg,
        messageLoop sampleHandler
            [Line.json (Json.obj [("id", Json.num 7), ("method", Json.num 5)])] =
          [{ jsonrpc := "2.0", id := Json.num 7, result := none,
             error := some { code := -32700, message := msg } }])
    ∧ lineParseFails Line.notJson = true
    ∧ recoverLineId Line.notJson = none
    ∧ messageLoop sampleHandler [Line.notJson, Line.json (Json.obj [("id", Json.num 1),
        ("method", Json.str "tools/list")])] =
      messageLoop sampleHandler [Line.json (Json.obj [("id", Json.num 1),
        ("method", Json.str "tools/list")])] :=
  ⟨rfl, rfl,
    (malformed_line_recovery sampleHandler
      (Line.json (Json.obj [("id", Json.num 7), ("method", Json.num 5)])) [] rfl).2
      (Json.num 7) rfl,
    rfl, rfl,
    (malformed_line_recovery sampleHandler Line.notJson
      [Line.json (Json.obj [("id", Json.num 1), ("method", Json.str "tools/list")])] rfl).1
      rfl⟩

/-- C9: a line that fails the typed envelope decode but is a JSON object
whose `id` member is explicitly `null` does get a -32700 parse-error
response with id `null` — the secondary recovery checks only presence of
the `id` key, not non-nullness. -/
theorem malformed_line_null_id_gets_response (h : MCPHandler)
    (fields : List (String × Json)) (e : String)
    (hp : parseRequest (Json.obj fields) = Except.error e)
    (hid : lookupLast fields "id" = some Json.null) :
    processLine h (Line.json (Json.obj fields)) =
      some { jsonrpc := "2.0", id := Json.null, result := none,
             error := some { code := -32700, message := "Parse error: " ++ e } } := by
  unfold processLine
  simp only [hp]
  have hr : recoverLineId (Line.json (Json.obj fields)) = some Json.null := hid
  simp only [hr]

theorem malformed_line_null_id_gets_response_witness :
    parseRequest (Json.obj [("id", Json.null), ("method", Json.num 5)]) =
        Except.error "cannot unmarshal number into field method"
    ∧ lookupLast [("id", Json.null), ("method", Json.num 5)] "id" = some Json.null
    ∧ processLine sampleHandler
        (Line.json (Json.obj [("id", Json.null), ("method", Json.num 5)])) =
      some { jsonrpc := "2.0", id := Json.null, result := none,
             error := some
               { code := -32700,
                 message := "Parse error: cannot unmarshal number into field method" } } :=
  ⟨rfl, rfl, malformed_line_null_id_gets_response sampleHandler _ _ rfl rfl⟩

/-- C5 (amended): on a cache state with unique keys and for every
nonnegative duration `ttl`: `Set k v ttl` followed immediately by `Get k`
returns `(v, true)`; once more than `ttl` has elapsed since the set,
`Get k` returns found = false; found is false exactly when `k` is absent
or now is strictly after its `expiresAt`; and after such an expired entry
is seen, the deferred lazy delete (`Delete`) and the background sweep
(`cleanupExpired`) each leave a state whose keys — and hence `Size` — no
longer count `k`. -/
theorem cache_set_get_expiry {α : Type} (mc : MemoryCache α) (k : String) (v : α)
    (ttl now now2 : Int) (hnodup : (keysAssoc mc.items).Nodup)
    (httl : 0 ≤ ttl) (hlate : now + ttl < now2) :
    ((mc.Set k v ttl now).Get k now = (some v, true))
    ∧ ((mc.Set k v ttl now).Get k now2 = (none, false))
    ∧ (∀ (key : String) (t : Int),
        (mc.Get key t).2 = false ↔
          lookupAssoc mc.items key = none ∨
            ∃ item, lookupAssoc mc.items key = some item ∧ item.expiresAt < t)
    ∧ (∀ (key : String) (t : Int) (item : CacheItem α),
        lookupAssoc mc.items key = some item → item.expiresAt < t →
          key ∉ (mc.Delete key).Keys ∧ key ∉ (mc.cleanupExpired t).Keys) := by
  refine ⟨?_, ?_, ?_, ?_⟩
  · unfold MemoryCache.Set MemoryCache.Get
    simp only [lookupAssoc_insertAssoc_self]
    rw [if_neg (by omega)]
  · unfold MemoryCache.Set MemoryCache.Get
    simp only [lookupAssoc_insertAssoc_self]
    rw [if_pos (by omega)]
  · intro key t
    unfold MemoryCache.Get
    cases hl : lookupAssoc mc.items key with
    | none =>
      constructor
      · intro _
        exact Or.inl rfl
      · intro _
        rfl
    | some item =>
      by_cases hexp : item.expiresAt < t
      · constructor
        · intro _
          exact Or.inr ⟨item, rfl, hexp⟩
        · intro _
          show (if item.expiresAt < t then ((none : Option α), false)
            else (some item.value, true)).2 = false
          rw [if_pos hexp]
      · constructor
        · intro hfalse
          exfalso
          have hred : (if item.expiresAt < t then ((none : Option α), false)
              else (some item.value, true)).2 = false := hfalse
          rw [if_neg hexp] at hred
          cases hred
        · rintro (hnone | ⟨item2, hsome, hexp2⟩)
          · cases hnone
          · injection hsome with hi
            subst hi
            exact absurd hexp2 hexp
  · intro key t item hl hexp
    constructor
    · intro hmem
      unfold MemoryCache.Delete MemoryCache.Keys at hmem
      rcases List.mem_map.mp hmem with ⟨p, hp, hfst⟩
      rcases List.mem_filter.mp hp with ⟨hpin, hcond⟩
      have hbeq : (p.1 == key) = true := beq_iff_eq.mpr hfst
      rw [hbeq] at hcond
      cases hcond
    · intro hmem
      unfold MemoryCache.cleanupExpired MemoryCache.Keys at hmem
      rcases List.mem_map.mp hmem with ⟨p, hp, hfst⟩
      rcases List.mem_filter.mp hp with ⟨hpin, hcond⟩
      have hlp : lookupAssoc mc.items p.1 = some p.2 :=
        lookupAssoc_of_mem_of_nodup _ p hpin hnodup
      rw [hfst, hl] at hlp
      injection hlp with hi
      have hnc : ¬ (p.2.expiresAt < t) := by
        intro hc
        rw [decide_eq_true hc] at hcond
        cases hcond
      exact hnc (hi ▸ hexp)

/-- C5 counterexample: Go's `time.Duration` is signed, so `Set` accepts a
negative ttl; with `ttl = -1` the entry is created already expired and an
immediate `Get` returns found = false — refuting the claim's universal
quantification over every duration. -/
theorem cache_negative_ttl_counterexample :
    ((NewMemoryCache Nat).Set "k" 0 (-1) 0).Get "k" 0 = (none, false)
    ∧ ¬ (((NewMemoryCache Nat).Set "k" 0 (-1) 0).Get "k" 0 = (some 0, true)) :=
  ⟨by decide, by decide⟩

theorem cache_set_get_expiry_witness :
    (keysAssoc (NewMemoryCache Nat).items).Nodup
    ∧ (0 : Int) ≤ 5
    ∧ (0 : Int) + 5 < 6
    ∧ (((NewMemoryCache Nat).Set "k" 0 5 0).Get "k" 0 = (some 0, true))
    ∧ (((NewMemoryCache Nat).Set "k" 0 5 0).Get "k" 6 = (none, false))
    ∧ (∀ (key : String) (t : Int),
        ((NewMemoryCache Nat).Get key t).2 = false ↔
          lookupAssoc (NewMemoryCache Nat).items key = none ∨
            ∃ item, lookupAssoc (NewMemoryCache Nat).items key = some item
              ∧ item.expiresAt < t)
    ∧ (∀ (key : String) (t : Int) (item : CacheItem Nat),
        lookupAssoc (NewMemoryCache Nat).items key = some item → item.expiresAt < t →
          key ∉ ((NewMemoryCache Nat).Delete key).Keys
          ∧ key ∉ ((NewMemoryCache Nat).cleanupExpired t).Keys) :=
  have h := cache_set_get_expiry (NewMemoryCache Nat) "k" 0 5 0 6 List.nodup_nil
    (by decide) (by decide)
  ⟨List.nodup_nil, by decide, by decide, h.1, h.2.1, h.2.2.1, h.2.2.2⟩

end SystemMcp
